import Mathlib

/-!
Shallow embedding of the core of the `mandate-pipeline` repository:
the symbol-space discovery/sync engine (`src/un_docs_downloader/pipeline.py`)
and the symbol classifier / reference extractor
(`src/mandate_pipeline/extractor.py`), together with a spec-modelled
lineage resolver (the `mandate_pipeline.lineage` module is not part of the
source tree; only its tests are, so it is modelled from the specification).

Machine integers are modelled as `Int` (Python ints are unbounded), strings
as Lean `String`, dictionaries as ordered association lists, and the
iterator-based generator as a fuel-indexed finite prefix of the infinite
symbol stream.
-/

namespace MandatePipeline

/-! ## Pattern data model (pipeline.py)

A pattern in the source is a YAML-loaded dict with keys `name`, `template`,
optionally `start`, and arbitrary further keys that are either scalars or
lists (`generate_symbols`, pipeline.py lines 47-60).  The `template` is a
Python format string; we embed it as an alternating list of literal and
placeholder parts, which is exactly the information `str.format` consumes. -/

inductive TemplatePart where
  | lit (s : String)
  | var (key : String)
  deriving DecidableEq, Repr

inductive PatternValue where
  | scalar (v : String)
  | listVal (vs : List String)
  deriving DecidableEq, Repr

structure Pattern where
  name : String
  template : List TemplatePart
  /-- The `start` key; `none` when absent from the dict
      (both reads use `pattern.get("start", 1)`). -/
  start? : Option Int
  /-- The remaining keys of the pattern dict, in declaration order. -/
  extra : List (String × PatternValue)
  deriving DecidableEq, Repr

/-- The value `pattern.get("start", 1)` (pipeline.py line 48 and line 197). -/
def Pattern.startNum (p : Pattern) : Int :=
  p.start?.getD 1

/-- The list-valued variables of a pattern, in declaration order
    (pipeline.py lines 54-58: keys with `isinstance(value, list)`). -/
def listVars (p : Pattern) : List (String × List String) :=
  p.extra.filterMap fun kv =>
    match kv.2 with
    | PatternValue.listVal vs => some (kv.1, vs)
    | PatternValue.scalar _ => none

/-- The scalar variables of a pattern, in declaration order
    (pipeline.py lines 54-60). -/
def scalarVars (p : Pattern) : List (String × String) :=
  p.extra.filterMap fun kv =>
    match kv.2 with
    | PatternValue.listVal _ => none
    | PatternValue.scalar v => some (kv.1, v)

/-- Embeds `template.format(**vars_dict)`.  Lookup is first-match in the
    association list; the caller orders the list so that first-match agrees
    with the dict's last-write-wins construction.  An unbound placeholder
    raises `KeyError` in Python — the spec declares generation undefined
    there (§3), so we complete it with the empty string. -/
def renderParts (parts : List TemplatePart) (vars : List (String × String)) : String :=
  parts.foldl (fun acc part =>
    acc ++ match part with
      | TemplatePart.lit s => s
      | TemplatePart.var k => ((vars.lookup k).getD "")) ""

/-- Embeds `itertools.product(*values)`: the Cartesian product of the value
    lists, first list varying slowest (pipeline.py line 71). -/
def cartesianProduct : List (List String) → List (List String)
  | [] => [[]]
  | vs :: rest => vs.flatMap fun v => (cartesianProduct rest).map (v :: ·)

/-- Embeds `dict(zip(keys, combo))` for one product tuple (pipeline.py line 75). -/
def comboAssign (lv : List (String × List String)) : List (List (String × String)) :=
  (cartesianProduct (lv.map Prod.snd)).map fun combo => (lv.map Prod.fst).zip combo

/-- The symbols `generate_symbols` emits at one cursor value `n`
    (pipeline.py lines 65-87): one symbol when there are no list-valued
    variables, otherwise one per Cartesian-product tuple.  The dict passed
    to `format` is built combo → scalars → `number`, each write overriding
    the previous, so `number` (written last) is looked up first. -/
def symbolsAt (p : Pattern) (n : Int) : List String :=
  let lv := listVars p
  if lv.isEmpty then
    [renderParts p.template (("number", toString n) :: scalarVars p)]
  else
    (comboAssign lv).map fun cv =>
      renderParts p.template (("number", toString n) :: (scalarVars p ++ cv))

/-- The cursor values `start, start+1, …` for `fuel` steps of the
    `while` loop of `generate_symbols`. -/
def numbersFrom (start : Int) : Nat → List Int
  | 0 => []
  | Nat.succ k => start :: numbersFrom (start + 1) k

/-- The symbol stream of `generate_symbols(pattern)` restricted to its
    first `fuel` cursor values (the Python generator is infinite when
    `count is None`; every finite prefix it realizes is a prefix of this
    list for large enough `fuel`). -/
def genSymbols (p : Pattern) (fuel : Nat) : List String :=
  (numbersFrom p.startNum fuel).flatMap (symbolsAt p)

/-- Like `genSymbols`, but pairing each emitted symbol with the cursor
    value (`number`) it was generated at. -/
def genPairs (p : Pattern) (fuel : Nat) : List (Int × String) :=
  (numbersFrom p.startNum fuel).flatMap fun n => (symbolsAt p n).map fun s => (n, s)

/-- Embeds `generate_symbols(pattern, count)` with a finite `count`
    (pipeline.py lines 36-89): the first `count` symbols of the stream.
    Each cursor value emits at least one symbol whenever every list
    variable is non-empty, so `count` cursor values always suffice. -/
def generate_symbols (p : Pattern) (count : Nat) : List String :=
  (genSymbols p count).take count

/-! ## Existence probe (pipeline.py, `document_exists`)

`document_exists` issues one HTTP HEAD request.  The outcome space of that
request, as seen by the function, is: a response (status code plus an
optional `Content-Type` header) or a raised `requests.RequestException`
(which covers timeouts and connection failures).  We embed that outcome
space as a datatype and the function as a total map on it. -/

inductive HeadOutcome where
  /-- A response arrived: status code and the optional `Content-Type`
      header (`response.headers.get("Content-Type", "")` reads it with
      default `""`). -/
  | response (status : Nat) (contentType : Option String)
  /-- A `requests.RequestException` was raised: timeout, connection
      failure, or any other transport error. -/
  | requestException
  deriving DecidableEq, Repr

/-- Substring test: `needle` occurs as a contiguous substring
    of the remaining character list. -/
def charsContain (needle : List Char) : List Char → Bool
  | [] => needle.isEmpty
  | c :: t => needle.isPrefixOf (c :: t) || charsContain needle t

/-- Python `needle in hay` on strings. -/
def strContains (hay needle : String) : Bool :=
  charsContain needle.toList hay.toList

/-- Embeds `document_exists` (pipeline.py lines 92-113): `True` iff the HEAD
    request yields status 200 and `"pdf" in content_type.lower()`; every
    other status and every `requests.RequestException` yields `False`. -/
def document_exists : HeadOutcome → Bool
  | HeadOutcome.response status ct =>
      if status = 200 then strContains (ct.getD "").toLower "pdf" else false
  | HeadOutcome.requestException => false

/-! ## Discovery (pipeline.py, `discover_documents`)

`discover_documents` iterates over the infinite symbol stream, probing
each symbol and stopping after `max_consecutive_misses` consecutive
misses.  The existence probe is the external-collaborator boundary
(spec §4.3), so it is a parameter `probe : String → Bool` here; in the
source it is `document_exists` applied to the network outcome.  We run the
loop as a fold over a fuel-bounded prefix of the stream, recording the
probed (number, symbol) pairs; the `stopped` flag is `true` exactly when
the Python loop has returned, in which case a longer prefix changes
nothing. -/

structure DiscoverSt where
  probed : List (Int × String)
  found : List String
  consecutiveMisses : Nat
  stopped : Bool
  deriving DecidableEq, Repr

/-- One iteration of the `for symbol in generate_symbols(pattern)` loop of
    `discover_documents` (pipeline.py lines 135-142). -/
def discoverStep (probe : String → Bool) (maxMisses : Nat) (st : DiscoverSt)
    (ns : Int × String) : DiscoverSt :=
  if st.stopped then st
  else if probe ns.2 then
    { probed := st.probed ++ [ns], found := st.found ++ [ns.2],
      consecutiveMisses := 0, stopped := false }
  else
    { probed := st.probed ++ [ns], found := st.found,
      consecutiveMisses := st.consecutiveMisses + 1,
      stopped := decide (maxMisses ≤ st.consecutiveMisses + 1) }

/-- The `discover_documents` run for `fuel` cursor values, with full state. -/
def discoverRun (probe : String → Bool) (p : Pattern) (maxMisses : Nat)
    (fuel : Nat) : DiscoverSt :=
  (genPairs p fuel).foldl (discoverStep probe maxMisses)
    { probed := [], found := [], consecutiveMisses := 0, stopped := false }

/-- The symbols `discover_documents` yields (pipeline.py lines 116-142). -/
def discover_documents (probe : String → Bool) (p : Pattern) (maxMisses : Nat)
    (fuel : Nat) : List String :=
  (discoverRun probe p maxMisses fuel).found

/-! ## Sync state (pipeline.py, `load_sync_state` / `get_start_number`)

The persisted state is a JSON object `{"patterns": {name: {"highest_found":
int}}, "last_sync": …}`.  We embed the in-memory dict: an association list
from pattern name to a per-pattern record whose `highest_found` key may be
absent.  File I/O (`load_sync_state` / `save_sync_state`) is outside the
embedding; `sync_all_patterns`'s in-memory update of the dict is
`recordHighest` below. -/

structure PatternState where
  highest_found : Option Int
  deriving DecidableEq, Repr

structure SyncState where
  patterns : List (String × PatternState)
  deriving DecidableEq, Repr

/-- Embeds `state.get("patterns", {}).get(pattern_name, {})` (pipeline.py 191). -/
def patternStateOf (s : SyncState) (name : String) : PatternState :=
  (s.patterns.lookup name).getD { highest_found := none }

/-- Embeds `get_start_number` (pipeline.py lines 179-197): `highest_found + 1`
    when the state records one, else `pattern.get("start", 1)`. -/
def get_start_number (p : Pattern) (s : SyncState) : Int :=
  match (patternStateOf s p.name).highest_found with
  | some h => h + 1
  | none => p.startNum

/-- The initial `highest_found` of `sync_pattern` (pipeline.py lines
    230-232): the recorded value, defaulting to `pattern.get("start", 1) - 1`. -/
def initHighest (p : Pattern) (s : SyncState) : Int :=
  ((patternStateOf s p.name).highest_found).getD (p.startNum - 1)

/-- Embeds `state["patterns"][name]["highest_found"] = h` (pipeline.py lines
    281-283), creating the entry when absent. -/
def setHighest : List (String × PatternState) → String → Int →
    List (String × PatternState)
  | [], name, h => [(name, { highest_found := some h })]
  | (k, v) :: rest, name, h =>
      if k = name then (k, { highest_found := some h }) :: rest
      else (k, v) :: setHighest rest name h

def recordHighest (s : SyncState) (name : String) (h : Int) : SyncState :=
  { patterns := setHighest s.patterns name h }

/-! ## Sync (pipeline.py, `sync_pattern` / `sync_all_patterns`) -/

structure SyncSt where
  newDocs : List String
  highestFound : Int
  consecutiveMisses : Nat
  currentNumber : Int
  stopped : Bool
  deriving DecidableEq, Repr

/-- One iteration of the `for symbol in generate_symbols(resume_pattern)`
    loop of `sync_pattern` (pipeline.py lines 236-248).  Note the source
    increments `current_number` once per emitted *symbol* (line 248), and
    the `break` on reaching the miss threshold skips that increment. -/
def syncStep (probe : String → Bool) (maxMisses : Nat) (st : SyncSt)
    (sym : String) : SyncSt :=
  if st.stopped then st
  else if probe sym then
    { newDocs := st.newDocs ++ [sym], highestFound := st.currentNumber,
      consecutiveMisses := 0, currentNumber := st.currentNumber + 1,
      stopped := false }
  else if maxMisses ≤ st.consecutiveMisses + 1 then
    { st with consecutiveMisses := st.consecutiveMisses + 1, stopped := true }
  else
    { st with
      consecutiveMisses := st.consecutiveMisses + 1
      currentNumber := st.currentNumber + 1 }

def initSyncSt (p : Pattern) (s : SyncState) : SyncSt :=
  { newDocs := [], highestFound := initHighest p s, consecutiveMisses := 0,
    currentNumber := get_start_number p s, stopped := false }

/-- The full loop state of `sync_pattern` after `fuel` cursor values of the
    resumed generator (pipeline.py lines 200-250).  `resume_pattern` is the
    input pattern with its `start` key overwritten by the resume point
    (lines 226-227).  Downloading (`download_document`) is I/O; the
    downloaded symbols are exactly `newDocs`. -/
def syncRunSt (probe : String → Bool) (p : Pattern) (s : SyncState)
    (maxMisses : Nat) (fuel : Nat) : SyncSt :=
  let resume : Pattern := { p with start? := some (get_start_number p s) }
  (genSymbols resume fuel).foldl (syncStep probe maxMisses) (initSyncSt p s)

/-- The return value of `sync_pattern`: `(new_docs, highest_found)`. -/
def sync_pattern (probe : String → Bool) (p : Pattern) (s : SyncState)
    (maxMisses : Nat) (fuel : Nat) : List String × Int :=
  let st := syncRunSt probe p s maxMisses fuel
  (st.newDocs, st.highestFound)

/-- Embeds `sync_all_patterns` (pipeline.py lines 253-291) restricted to its
    in-memory core: fold over the configured patterns, syncing each against
    the state as updated by its predecessors, recording each new
    `highest_found`, and collecting per-pattern results.  The trailing
    `last_sync` timestamp and the state-file write are I/O and out of the
    embedding. -/
def sync_all_patterns (probe : String → Bool) (patterns : List Pattern)
    (s : SyncState) (maxMisses : Nat) (fuel : Nat) :
    SyncState × List (String × List String) :=
  patterns.foldl
    (fun acc p =>
      let r := sync_pattern probe p acc.1 maxMisses fuel
      (recordHighest acc.1 p.name r.2, acc.2 ++ [(p.name, r.1)]))
    (s, [])

/-! ## Symbol reference extraction (extractor.py, `find_symbol_references`)

The source scans free text with the regex `\bA(?:/[A-Z0-9.]+)+/L\.\d+\b`
under `re.IGNORECASE`, uppercases each match and deduplicates preserving
first-appearance order.  We embed the regex as a recursive matcher with
the Python engine's backtracking preferences.  Two observations make the
matcher deterministic: the character class `[A-Z0-9.]` excludes `/`, and
both possible continuations of `[A-Z0-9.]+` (a further group iteration and
the literal tail) begin with `/`, so every segment run is maximal;
likewise `\d+` must be a maximal digit run for the trailing `\b` to hold.
The only real backtracking is the greedy group count, handled below. -/

/-- Python `\w` on the ASCII plane: letters, digits and underscore. -/
def wordChar (c : Char) : Bool := c.isAlphanum || c == '_'

/-- The class `[A-Z0-9.]` under `re.IGNORECASE`. -/
def segChar (c : Char) : Bool :=
  ('A' ≤ c && c ≤ 'Z') || ('a' ≤ c && c ≤ 'z') || c.isDigit || c == '.'

/-- Match the literal tail `/L\.\d+\b` (case-insensitive `L`) at the head
    of `cs`: the number of characters consumed, or `none`.  The `\d+` run
    is maximal and the following character (if any) must not be a word
    character. -/
def tailMatch (cs : List Char) : Option Nat :=
  match cs with
  | '/' :: l :: '.' :: rest =>
      if l == 'L' || l == 'l' then
        let ds := rest.takeWhile Char.isDigit
        if ds.isEmpty then none
        else
          match rest.drop ds.length with
          | [] => some (3 + ds.length)
          | c :: _ => if wordChar c then none else some (3 + ds.length)
      else none
  | _ => none

/-- Match `(?:/[A-Z0-9.]+)*` followed by `/L\.\d+\b` at the head of `cs`,
    preferring more group iterations, as the greedy Python engine does:
    consume a segment and recurse; on failure fall back to matching the
    tail here. -/
def groupTailF : Nat → List Char → Option Nat
  | 0, _ => none
  | Nat.succ fuel, cs =>
      match cs with
      | '/' :: cs1 =>
          let r := cs1.takeWhile segChar
          if r.length = 0 then tailMatch cs
          else
            match groupTailF fuel (cs1.drop r.length) with
            | some n => some (1 + r.length + n)
            | none => tailMatch cs
      | _ => tailMatch cs

/-- Runs `groupTailF` with enough fuel: every recursive call consumes at least
    two characters, so `cs.length` steps never run out. -/
def groupTail (cs : List Char) : Option Nat :=
  groupTailF cs.length cs

/-- Match `(?:/[A-Z0-9.]+)+/L\.\d+\b` — the regex after its leading `A` —
    at the head of `cs`: at least one group segment must precede the tail. -/
def afterA (cs : List Char) : Option Nat :=
  match cs with
  | '/' :: cs1 =>
      let r := cs1.takeWhile segChar
      if r.length = 0 then none
      else
        match groupTail (cs1.drop r.length) with
        | some n => some (1 + r.length + n)
        | none => none
  | _ => none

/-- Embeds `re.finditer` for the reference regex: scan left to right; at each
    position whose character is `A`/`a` preceded by a non-word character
    (or the start of the text — the leading `\b`), try the rest of the
    regex; on a match emit it and resume after its end, otherwise advance
    one character.  `prev` is the character before the scan position. -/
def scanSymsF : Nat → Option Char → List Char → List (List Char)
  | 0, _, _ => []
  | Nat.succ fuel, prev, cs =>
      match cs with
      | [] => []
      | c :: rest =>
          if (c == 'A' || c == 'a') &&
             (match prev with | none => true | some q => !wordChar q) then
            match afterA rest with
            | some n =>
                (c :: rest.take n) ::
                  scanSymsF fuel (some ((rest.take n).getLastD c)) (rest.drop n)
            | none => scanSymsF fuel (some c) rest
          else scanSymsF fuel (some c) rest

/-- Runs `scanSymsF` with enough fuel: every step consumes at least one
    character, so `cs.length` steps never run out. -/
def scanSyms (prev : Option Char) (cs : List Char) : List (List Char) :=
  scanSymsF cs.length prev cs

/-- The matched substrings of the reference regex, in order of appearance. -/
def symbolMatches (text : String) : List String :=
  (scanSyms none text.toList).map fun cs => String.mk cs

/-- Python `str.upper()` (the matches are ASCII). -/
def strUpper (s : String) : String := String.mk (s.toList.map Char.toUpper)

/-- Embeds `find_symbol_references` (extractor.py lines 239-256): uppercase each
    match and append it unless already collected. -/
def find_symbol_references (text : String) : List String :=
  (symbolMatches text).foldl
    (fun symbols m =>
      if strUpper m ∈ symbols then symbols else symbols ++ [strUpper m]) []

/-- First-appearance-order deduplication as the spec words it: keep an
    element iff it was not already kept. -/
def dedupKeepFirst (seen : List String) : List String → List String
  | [] => []
  | x :: xs =>
      if x ∈ seen then dedupKeepFirst seen xs
      else x :: dedupKeepFirst (seen ++ [x]) xs

/-! ## Lineage resolver (spec §4.6, modelled)

The `mandate_pipeline.lineage` module is not under `src/` — only its test
suite is — so the resolver, the classifier helpers it exports, and the
metadata-client boundary are modelled from the specification (§4.1, §4.5,
§4.6).  The metadata client is a parameter `fetch : String → Option
UndlMetadata`, mirroring `fetch(symbol) -> UndlMetadata | absent`. -/

/-- A non-empty all-digit character run. -/
def isDigitRun (cs : List Char) : Bool := !cs.isEmpty && cs.all Char.isDigit

/-- Split a character list on `/` (the semantics of `"…".split("/")`:
    adjacent separators and edges produce empty segments). -/
def splitSlashAux : List Char → List Char → List (List Char)
  | [], acc => [acc.reverse]
  | c :: rest, acc =>
      if c = '/' then acc.reverse :: splitSlashAux rest []
      else splitSlashAux rest (c :: acc)

def splitSlash (sym : String) : List (List Char) :=
  splitSlashAux sym.toList []

/-- Modelled from the spec: `is_resolution` of the absent
    `mandate_pipeline.lineage` module.  §4.1: true iff the symbol is a body
    prefix, the literal `RES`, a session number and a sequence number —
    no draft marker. -/
def is_resolution (sym : String) : Bool :=
  match splitSlash sym with
  | [body, res, sess, num] =>
      !body.isEmpty && res == "RES".toList && isDigitRun sess && isDigitRun num
  | _ => false

/-- Modelled from the spec: `is_proposal` of the absent
    `mandate_pipeline.lineage` module.  §4.1: true iff the symbol contains
    a draft marker segment, a literal `L.` followed by digits. -/
def is_proposal (sym : String) : Bool :=
  (splitSlash sym).any fun seg =>
    match seg with
    | 'L' :: '.' :: ds => isDigitRun ds
    | _ => false

inductive LinkMethod where
  | none
  | undl_metadata
  | symbol_reference
  deriving DecidableEq, Repr

/-- Normalized bibliographic record (spec §3, `UndlMetadata`). -/
structure UndlMetadata where
  symbol : String
  related_symbols : List String
  draft_symbols : List String
  base_proposal : Option String
  deriving DecidableEq, Repr

/-- In-memory document record (spec §3, `DocumentRecord`).  Confidence is
    a rational in `[0,1]` (the source assigns only the literals 1.0 and a
    fixed heuristic value below it). -/
structure DocRecord where
  symbol : String
  title : String := ""
  symbol_references : List String := []
  link_method : LinkMethod := LinkMethod.none
  link_confidence : ℚ := 0
  base_proposal_symbol : Option String := none
  linked_proposal_symbols : List String := []
  linked_resolution_symbol : Option String := none
  deriving DecidableEq, Repr

/-- Modelled from the spec, §4.6 Pass 0 (per record): the resolution record
    gets `base_proposal_symbol`, `link_method = undl_metadata`,
    `link_confidence = 1.0` and the locally-held draft symbols; each
    locally-held draft gets the back-reference. -/
def pass0Update (resSym : String) (md : UndlMetadata) (drafts : List String)
    (d : DocRecord) : DocRecord :=
  let d1 :=
    if d.symbol == resSym then
      { d with
        base_proposal_symbol := md.base_proposal
        link_method := LinkMethod.undl_metadata
        link_confidence := 1
        linked_proposal_symbols := d.linked_proposal_symbols ++ drafts }
    else d
  if drafts.contains d.symbol then
    { d1 with linked_resolution_symbol := some resSym }
  else d1

/-- The metadata draft symbols that match a locally-held record. -/
def localDrafts (md : UndlMetadata) (coll : List DocRecord) : List String :=
  md.draft_symbols.filter fun ds => coll.any fun d => d.symbol == ds

/-- Modelled from the spec, §4.6 Pass 0 over the collection.
    `base_proposal_symbol` is recorded even when no draft symbol matches a
    locally-held record. -/
def pass0Apply (resSym : String) (md : UndlMetadata) (coll : List DocRecord) :
    List DocRecord :=
  coll.map (pass0Update resSym md (localDrafts md coll))

/-- Modelled from the spec, §4.6 Pass 1 (per record): the resolution gets
    the referenced proposal with `link_method = symbol_reference` and a
    confidence below 1.0; when the proposal is locally held the link is
    bidirectional. -/
def pass1Update (resSym prop : String) (present : Bool) (d : DocRecord) : DocRecord :=
  let d1 :=
    if d.symbol == resSym then
      { d with
        base_proposal_symbol := some prop
        link_method := LinkMethod.symbol_reference
        link_confidence := 4/5
        linked_proposal_symbols :=
          d.linked_proposal_symbols ++ (if present then [prop] else []) }
    else d
  if present && (d.symbol == prop) then
    { d1 with linked_resolution_symbol := some resSym }
  else d1

/-- Modelled from the spec, §4.6 Pass 1: among the resolution's
    `symbol_references`, the first symbol classified as a proposal. -/
def pass1Cascade (resSym : String) (d : DocRecord) (coll : List DocRecord) :
    List DocRecord :=
  match d.symbol_references.find? (fun s => is_proposal s) with
  | Option.none => coll
  | Option.some prop =>
      coll.map (pass1Update resSym prop (coll.any fun x => x.symbol == prop))

/-- Modelled from the spec, §4.6: the cascade for the record named `sym`,
    each pass applied only if the previous one did not already establish a
    link; a record that is already linked is left untouched. -/
def processResolution (fetch : String → Option UndlMetadata) (useUndl : Bool)
    (coll : List DocRecord) (sym : String) : List DocRecord :=
  match coll.find? (fun d => d.symbol == sym) with
  | Option.none => coll
  | Option.some d =>
      if is_resolution d.symbol then
        if d.linked_proposal_symbols.isEmpty && d.base_proposal_symbol.isNone then
          match (cond useUndl (fetch d.symbol) Option.none) with
          | Option.some md =>
              if md.base_proposal.isSome then pass0Apply d.symbol md coll
              else pass1Cascade d.symbol d coll
          | Option.none => pass1Cascade d.symbol d coll
        else coll
      else coll

/-- Modelled from the spec, §4.6: run the cascade over every record of the
    collection in order (non-resolutions are skipped by the cascade),
    mutating the collection in place. -/
def link_documents (fetch : String → Option UndlMetadata) (useUndl : Bool)
    (docs : List DocRecord) : List DocRecord :=
  (docs.map DocRecord.symbol).foldl (processResolution fetch useUndl) docs

/-! ## Proof-side predicates

The two miss-window predicates describe the `sync_pattern` loop state over
a scalar symbol stream `f`; `EstAt`/`UnlinkedAt` describe a resolution's
link state across the resolver fold. -/

def MissWindowStopped (probe : String → Bool) (f : Int → String) (mm : Nat)
    (st : SyncSt) : Prop :=
  st.stopped = true →
    st.currentNumber = st.highestFound + (max mm 1 : Nat) ∧
    ∀ j, st.highestFound < j → j ≤ st.currentNumber → probe (f j) = false

def MissWindowRunning (probe : String → Bool) (f : Int → String) (mm : Nat)
    (st : SyncSt) : Prop :=
  st.stopped = false →
    st.currentNumber = st.highestFound + 1 + st.consecutiveMisses ∧
    st.consecutiveMisses < max mm 1 ∧
    ∀ j, st.highestFound < j → j < st.currentNumber → probe (f j) = false

/-- Every record of `coll` named `rs` carries a Pass-0 link. -/
def EstAt (rs : String) (coll : List DocRecord) : Prop :=
  ∀ d ∈ coll, d.symbol = rs →
    d.link_method = LinkMethod.undl_metadata ∧ d.link_confidence = 1 ∧
    d.base_proposal_symbol.isSome = true

/-- Every record of `coll` named `rs` is still unlinked. -/
def UnlinkedAt (rs : String) (coll : List DocRecord) : Prop :=
  ∀ d ∈ coll, d.symbol = rs →
    d.linked_proposal_symbols = [] ∧ d.base_proposal_symbol = Option.none

/-! ## Concrete fixtures used by the verification theorems -/

def emptyState : SyncState := { patterns := [] }

/-- The spec §8 test pattern `{template: "A/{number}/{track}", start: 5,
    track: ["L","M"]}`. -/
def trackPattern : Pattern :=
  { name := "track"
    template := [TemplatePart.lit "A/", TemplatePart.var "number",
                 TemplatePart.lit "/", TemplatePart.var "track"]
    start? := some 5
    extra := [("track", PatternValue.listVal ["L", "M"])] }

/-- A pattern without list-valued variables: template `A/{number}`, start 1. -/
def plainPattern : Pattern :=
  { name := "plain"
    template := [TemplatePart.lit "A/", TemplatePart.var "number"]
    start? := some 1
    extra := [] }

/-- A four-value list pattern (template `A/{number}/{track}`, start 1,
    track `["P","Q","R","S"]`). -/
def quadPattern : Pattern :=
  { name := "quad"
    template := [TemplatePart.lit "A/", TemplatePart.var "number",
                 TemplatePart.lit "/", TemplatePart.var "track"]
    start? := some 1
    extra := [("track", PatternValue.listVal ["P", "Q", "R", "S"])] }

def c8text : String := "Recalling a/80/l.5, see A/80/L.5 and A/C.2/80/L.35/Rev.1."

def c9md : UndlMetadata :=
  { symbol := "A/RES/80/142"
    related_symbols := ["A/C.2/80/L.35", "A/80/PV.64"]
    draft_symbols := ["A/C.2/80/L.35"]
    base_proposal := some "A/C.2/80/L.35" }

def c9fetch : String → Option UndlMetadata :=
  fun s => if s == "A/RES/80/142" then some c9md else none

def c9res : DocRecord :=
  { symbol := "A/RES/80/142", symbol_references := ["A/C.2/80/L.35"] }

def c9prop : DocRecord := { symbol := "A/C.2/80/L.35" }

/-- The resolution record as it comes out of the resolver on the fixture. -/
def linkedC9 : DocRecord :=
  (link_documents c9fetch true [c9res, c9prop]).headD { symbol := "" }

/-! ## Theorems -/

/-- C3: for the pattern `{template: "A/{number}/{track}", start: 5, track:
["L","M"]}` the first four symbols produced by `generate_symbols` are
exactly `A/5/L, A/5/M, A/6/L, A/6/M` in that order; in general, at each
cursor value the generator emits the Cartesian product of the list
variables' value lists — declaration order of variables, then declaration
order of values — before the cursor advances. -/
theorem C3_cartesian_ordering :
    generate_symbols trackPattern 4 = ["A/5/L", "A/5/M", "A/6/L", "A/6/M"] ∧
    ∀ p : Pattern, listVars p ≠ [] →
      (∀ fuel, genSymbols p fuel
          = (numbersFrom p.startNum fuel).flatMap (symbolsAt p)) ∧
      ∀ n, symbolsAt p n =
        (cartesianProduct ((listVars p).map Prod.snd)).map fun combo =>
          renderParts p.template
            (("number", toString n) ::
              (scalarVars p ++ ((listVars p).map Prod.fst).zip combo)) := by
  refine ⟨by decide, fun p hp => ⟨fun fuel => rfl, fun n => ?_⟩⟩
  have h : (listVars p).isEmpty = false := by
    cases hlv : listVars p with
    | nil => exact absurd hlv hp
    | cons a l => rfl
  simp [symbolsAt, h, comboAssign, List.map_map]

/-- C3 witness: the general part of `C3_cartesian_ordering` instantiated
at the concrete two-value track pattern. -/
theorem C3_cartesian_ordering_witness :
    genSymbols trackPattern 2
        = (numbersFrom trackPattern.startNum 2).flatMap (symbolsAt trackPattern) ∧
    symbolsAt trackPattern 5 =
      (cartesianProduct ((listVars trackPattern).map Prod.snd)).map fun combo =>
        renderParts trackPattern.template
          (("number", toString (5 : Int)) ::
            (scalarVars trackPattern ++
              ((listVars trackPattern).map Prod.fst).zip combo)) := by
  exact ⟨(C3_cartesian_ordering.2 trackPattern (by decide)).1 2,
         (C3_cartesian_ordering.2 trackPattern (by decide)).2 5⟩

/-- C1 (evaluation at the failing input): `sync_pattern` advances its
`current_number` cursor once per emitted symbol (pipeline.py line 248),
not once per sequence number.  With the two-value track pattern and a
probe under which exactly the symbol `A/5/M` — generated at sequence
number 5 — exists, the run records `highest_found = 6`, although both
symbols of sequence number 6 miss: the sequence number 6 becomes
`highest_found` without any of its symbols having been reported existing,
contradicting the claimed invariant. -/
theorem C1_cursor_per_symbol_eval :
    sync_pattern (fun s => s == "A/5/M") trackPattern emptyState 3 10
        = (["A/5/M"], 6) ∧
    (5, "A/5/M") ∈ genPairs trackPattern 1 ∧
    (symbolsAt trackPattern 6).all (fun s => s != "A/5/M") = true := by
  decide

/-- C6: `get_start_number` returns `highest_found + 1` when the state
records a `highest_found` for the pattern, and `pattern.start` (default 1)
when the state has no entry for the pattern. -/
theorem C6_get_start_number (p : Pattern) (s : SyncState) (h : Int) :
    ((patternStateOf s p.name).highest_found = some h →
        get_start_number p s = h + 1) ∧
    (s.patterns.lookup p.name = Option.none →
        get_start_number p s = p.startNum) := by
  constructor
  · intro hh
    simp [get_start_number, hh]
  · intro hn
    simp [get_start_number, patternStateOf, hn]

/-- C6 witness: both branches of `C6_get_start_number` at concrete states. -/
theorem C6_get_start_number_witness :
    get_start_number plainPattern
        { patterns := [("plain", { highest_found := some 7 })] } = 8 ∧
    get_start_number plainPattern emptyState = plainPattern.startNum := by
  constructor
  · exact (C6_get_start_number plainPattern
      { patterns := [("plain", { highest_found := some 7 })] } 7).1 (by decide)
  · exact (C6_get_start_number plainPattern emptyState 0).2 (by decide)

/-- C7: `document_exists` returns `true` exactly when the HEAD request
yields a 200 status whose `Content-Type` contains `pdf`
(case-insensitively); every other status and every request exception
yields `false`.  Totality of the function on `HeadOutcome` embeds "never
raises to the caller". -/
theorem C7_document_exists_iff (o : HeadOutcome) :
    document_exists o = true ↔
      ∃ ct, o = HeadOutcome.response 200 ct ∧
        strContains (ct.getD "").toLower "pdf" = true := by
  cases o with
  | response status ct =>
      by_cases h : status = 200
      · subst h
        simp [document_exists]
      · simp [document_exists, h]
  | requestException => simp [document_exists]

/-! ### Helper lemmas about the sync and discovery folds -/

theorem syncStep_of_stopped (probe : String → Bool) (mm : Nat) (st : SyncSt)
    (sym : String) (hs : st.stopped = true) : syncStep probe mm st sym = st := by
  simp [syncStep, hs]

theorem foldl_syncStep_stopped (probe : String → Bool) (mm : Nat) :
    ∀ (l : List String) (st : SyncSt), st.stopped = true →
      l.foldl (syncStep probe mm) st = st := by
  intro l
  induction l with
  | nil => intro st _; rfl
  | cons x xs ih =>
      intro st hs
      rw [List.foldl_cons, syncStep_of_stopped probe mm st x hs]
      exact ih st hs

theorem syncStep_of_miss (probe : String → Bool) (mm : Nat) (st : SyncSt)
    (sym : String) (hs : st.stopped = false) (hx : probe sym = false) :
    syncStep probe mm st sym =
      if mm ≤ st.consecutiveMisses + 1 then
        { st with consecutiveMisses := st.consecutiveMisses + 1, stopped := true }
      else
        { newDocs := st.newDocs, highestFound := st.highestFound,
          consecutiveMisses := st.consecutiveMisses + 1,
          currentNumber := st.currentNumber + 1, stopped := false } := by
  simp only [syncStep, hs, hx, Bool.false_eq_true, if_false]

theorem syncStep_of_hit (probe : String → Bool) (mm : Nat) (st : SyncSt)
    (sym : String) (hs : st.stopped = false) (hx : probe sym = true) :
    syncStep probe mm st sym =
      { newDocs := st.newDocs ++ [sym], highestFound := st.currentNumber,
        consecutiveMisses := 0, currentNumber := st.currentNumber + 1,
        stopped := false } := by
  simp [syncStep, hs, hx]

/-- When every probe misses, the fold changes neither `newDocs` nor
    `highestFound`. -/
theorem foldl_syncStep_allMiss (probe : String → Bool) (mm : Nat)
    (hmiss : ∀ sym, probe sym = false) :
    ∀ (l : List String) (st : SyncSt),
      (l.foldl (syncStep probe mm) st).newDocs = st.newDocs ∧
      (l.foldl (syncStep probe mm) st).highestFound = st.highestFound := by
  intro l
  induction l with
  | nil => intro st; exact ⟨rfl, rfl⟩
  | cons x xs ih =>
      intro st
      rw [List.foldl_cons]
      have hstep : (syncStep probe mm st x).newDocs = st.newDocs ∧
          (syncStep probe mm st x).highestFound = st.highestFound := by
        cases hs : st.stopped with
        | true => rw [syncStep_of_stopped probe mm st x hs]; exact ⟨rfl, rfl⟩
        | false =>
            rw [syncStep_of_miss probe mm st x hs (hmiss x)]
            split
            · exact ⟨rfl, rfl⟩
            · exact ⟨rfl, rfl⟩
      rcases ih (syncStep probe mm st x) with ⟨h1, h2⟩
      exact ⟨h1.trans hstep.1, h2.trans hstep.2⟩

theorem lookup_setHighest (name : String) (h : Int) :
    ∀ (l : List (String × PatternState)),
      (setHighest l name h).lookup name = some { highest_found := some h } := by
  intro l
  induction l with
  | nil => simp [setHighest, List.lookup]
  | cons kv rest ih =>
      cases kv with
      | mk k v =>
          by_cases hk : k = name
          · subst hk
            simp [setHighest, List.lookup]
          · have hbeq : (name == k) = false :=
              beq_eq_false_iff_ne.mpr fun hh => hk hh.symm
            simp only [setHighest, if_neg hk, List.lookup, hbeq]
            exact ih

theorem symbolsAt_scalar (p : Pattern) (hp : listVars p = []) (n : Int) :
    symbolsAt p n
      = [renderParts p.template (("number", toString n) :: scalarVars p)] := by
  simp [symbolsAt, hp]

/-- C10: for a pattern with no prior state entry and a probe under which
every symbol misses, `sync_pattern` returns `highest_found = start - 1`
(a sequence number never confirmed to exist), `sync_all_patterns` records
that value in the state, and a subsequent run therefore resumes at
`pattern.start`. -/
theorem C10_unfound_persists (probe : String → Bool) (p : Pattern) (s : SyncState)
    (mm fuel : Nat)
    (hnone : s.patterns.lookup p.name = Option.none)
    (hmiss : ∀ sym, probe sym = false) :
    (sync_pattern probe p s mm fuel).2 = p.startNum - 1 ∧
    (sync_all_patterns probe [p] s mm fuel).1.patterns.lookup p.name
        = some { highest_found := some (p.startNum - 1) } ∧
    get_start_number p (sync_all_patterns probe [p] s mm fuel).1 = p.startNum := by
  have hinit : initHighest p s = p.startNum - 1 := by
    simp [initHighest, patternStateOf, hnone]
  have h2 : (sync_pattern probe p s mm fuel).2 = p.startNum - 1 := by
    unfold sync_pattern syncRunSt
    have hkeep := (foldl_syncStep_allMiss probe mm hmiss
      (genSymbols { p with start? := some (get_start_number p s) } fuel)
      (initSyncSt p s)).2
    simpa [initSyncSt, hinit] using hkeep
  have hall : (sync_all_patterns probe [p] s mm fuel).1
      = recordHighest s p.name (sync_pattern probe p s mm fuel).2 := rfl
  refine ⟨h2, ?_, ?_⟩
  · rw [hall, h2]
    exact lookup_setHighest p.name (p.startNum - 1) s.patterns
  · rw [hall, h2]
    have hl := lookup_setHighest p.name (p.startNum - 1) s.patterns
    simp only [get_start_number, patternStateOf, recordHighest, hl, Option.getD_some]
    omega

/-- C10 witness: the plain pattern, empty state, all-miss probe. -/
theorem C10_unfound_persists_witness :
    (sync_pattern (fun _ => false) plainPattern emptyState 3 6).2
        = plainPattern.startNum - 1 ∧
    (sync_all_patterns (fun _ => false) [plainPattern] emptyState 3 6).1.patterns.lookup
        plainPattern.name = some { highest_found := some (plainPattern.startNum - 1) } ∧
    get_start_number plainPattern
        (sync_all_patterns (fun _ => false) [plainPattern] emptyState 3 6).1
      = plainPattern.startNum := by
  exact C10_unfound_persists (fun _ => false) plainPattern emptyState 3 6
    (by decide) (fun _ => rfl)

theorem discoverStep_of_stopped (probe : String → Bool) (mm : Nat)
    (st : DiscoverSt) (ns : Int × String) (hs : st.stopped = true) :
    discoverStep probe mm st ns = st := by
  simp [discoverStep, hs]

theorem foldl_discoverStep_stopped (probe : String → Bool) (mm : Nat) :
    ∀ (l : List (Int × String)) (st : DiscoverSt), st.stopped = true →
      l.foldl (discoverStep probe mm) st = st := by
  intro l
  induction l with
  | nil => intro st _; rfl
  | cons x xs ih =>
      intro st hs
      rw [List.foldl_cons, discoverStep_of_stopped probe mm st x hs]
      exact ih st hs

/-- C2: for a pattern without list-valued variables and a probe that
reports `false` for every symbol, `discover_documents` with
`max_consecutive_misses = 3` probes exactly 3 symbols — at sequence
numbers `start`, `start+1`, `start+2` — and then stops, having yielded
nothing. -/
theorem C2_stopping_rule (probe : String → Bool) (p : Pattern) (k : Nat)
    (hp : listVars p = []) (hmiss : ∀ sym, probe sym = false) :
    (discoverRun probe p 3 (k + 3)).probed.map Prod.fst
        = [p.startNum, p.startNum + 1, p.startNum + 2] ∧
    (discoverRun probe p 3 (k + 3)).probed.length = 3 ∧
    (discoverRun probe p 3 (k + 3)).found = [] ∧
    (discoverRun probe p 3 (k + 3)).stopped = true := by
  have hnum : numbersFrom p.startNum (k + 3)
      = p.startNum :: (p.startNum + 1) :: (p.startNum + 1 + 1)
          :: numbersFrom (p.startNum + 1 + 1 + 1) k := rfl
  have hrun : discoverRun probe p 3 (k + 3)
      = { probed := [(p.startNum,
            renderParts p.template (("number", toString p.startNum) :: scalarVars p)),
          (p.startNum + 1,
            renderParts p.template (("number", toString (p.startNum + 1)) :: scalarVars p)),
          (p.startNum + 1 + 1,
            renderParts p.template (("number", toString (p.startNum + 1 + 1)) :: scalarVars p))],
          found := [], consecutiveMisses := 3, stopped := true } := by
    unfold discoverRun genPairs
    rw [hnum]
    simp only [List.flatMap_cons, symbolsAt_scalar p hp, List.map_cons, List.map_nil,
      List.cons_append, List.nil_append, List.foldl_cons]
    norm_num [discoverStep, hmiss]
    exact foldl_discoverStep_stopped probe 3 _ _ rfl
  rw [hrun]
  refine ⟨?_, rfl, rfl, rfl⟩
  simp only [List.map_cons, List.map_nil]
  have h2 : p.startNum + 1 + 1 = p.startNum + 2 := by omega
  rw [h2]

/-- C2 witness: the plain pattern under the all-false probe. -/
theorem C2_stopping_rule_witness :
    (discoverRun (fun _ => false) plainPattern 3 (2 + 3)).probed.map Prod.fst
        = [plainPattern.startNum, plainPattern.startNum + 1, plainPattern.startNum + 2] ∧
    (discoverRun (fun _ => false) plainPattern 3 (2 + 3)).probed.length = 3 ∧
    (discoverRun (fun _ => false) plainPattern 3 (2 + 3)).found = [] ∧
    (discoverRun (fun _ => false) plainPattern 3 (2 + 3)).stopped = true := by
  exact C2_stopping_rule (fun _ => false) plainPattern 2 (by decide) (fun _ => rfl)

theorem get_start_eq_initHighest (p : Pattern) (s : SyncState) :
    get_start_number p s = initHighest p s + 1 := by
  unfold get_start_number initHighest
  cases h : (patternStateOf s p.name).highest_found with
  | some v => simp
  | none => simp

/-- The fold of `syncStep` never decreases `highestFound`, and keeps the
    cursor strictly ahead of it. -/
theorem sync_foldl_ge (probe : String → Bool) (mm : Nat) :
    ∀ (l : List String) (st : SyncSt),
      st.highestFound + 1 ≤ st.currentNumber →
      st.highestFound ≤ (l.foldl (syncStep probe mm) st).highestFound ∧
      (l.foldl (syncStep probe mm) st).highestFound + 1
          ≤ (l.foldl (syncStep probe mm) st).currentNumber := by
  intro l
  induction l with
  | nil => intro st h; exact ⟨le_refl _, h⟩
  | cons x xs ih =>
      intro st h
      rw [List.foldl_cons]
      have hstep : st.highestFound ≤ (syncStep probe mm st x).highestFound ∧
          (syncStep probe mm st x).highestFound + 1
              ≤ (syncStep probe mm st x).currentNumber := by
        cases hs : st.stopped with
        | true =>
            rw [syncStep_of_stopped probe mm st x hs]
            exact ⟨le_refl _, h⟩
        | false =>
            cases hx : probe x with
            | true =>
                rw [syncStep_of_hit probe mm st x hs hx]
                refine ⟨by simp; omega, by simp⟩
            | false =>
                rw [syncStep_of_miss probe mm st x hs hx]
                split
                · exact ⟨le_refl _, h⟩
                · refine ⟨le_refl _, by simp; omega⟩
      rcases ih _ hstep.2 with ⟨h1, h2⟩
      exact ⟨le_trans hstep.1 h1, h2⟩

theorem sync_pattern_ge_init (probe : String → Bool) (p : Pattern) (s : SyncState)
    (mm fuel : Nat) : initHighest p s ≤ (sync_pattern probe p s mm fuel).2 := by
  unfold sync_pattern syncRunSt
  have h := (sync_foldl_ge probe mm
    (genSymbols { p with start? := some (get_start_number p s) } fuel)
    (initSyncSt p s)
    (by simp [initSyncSt, get_start_eq_initHighest])).1
  simpa [initSyncSt] using h

theorem initHighest_record (p : Pattern) (s : SyncState) (h : Int) :
    initHighest p (recordHighest s p.name h) = h := by
  unfold initHighest patternStateOf recordHighest
  rw [lookup_setHighest p.name h s.patterns]
  rfl

/-- C4: across two consecutive sync runs of the same pattern — the second
reading the state recorded by the first — the recorded `highest_found`
never decreases, whatever either run's probe answers. -/
theorem C4_monotonic (probe1 probe2 : String → Bool) (p : Pattern) (s : SyncState)
    (mm1 mm2 fuel1 fuel2 : Nat) :
    (sync_pattern probe1 p s mm1 fuel1).2 ≤
      (sync_pattern probe2 p
        (recordHighest s p.name (sync_pattern probe1 p s mm1 fuel1).2)
        mm2 fuel2).2 := by
  have h := sync_pattern_ge_init probe2 p
    (recordHighest s p.name (sync_pattern probe1 p s mm1 fuel1).2) mm2 fuel2
  rwa [initHighest_record] at h

/-! ### Scalar-pattern run analysis (for the idempotence claim)

For a pattern without list-valued variables the generator emits exactly
one symbol per cursor value, so the loop's `current_number` coincides with
the generator's sequence number.  The two predicates below capture the
loop state: while running, the consecutive misses sit on the numbers
strictly between `highestFound` and the cursor; when stopped, the window
of misses behind the final cursor has length `max maxMisses 1` (one miss
already stops a run with threshold 0). -/

theorem flatMap_symbolsAt_scalar (p : Pattern) (hp : listVars p = []) :
    ∀ l : List Int, l.flatMap (symbolsAt p)
      = l.map fun n =>
          renderParts p.template (("number", toString n) :: scalarVars p) := by
  intro l
  induction l with
  | nil => rfl
  | cons n ns ih => simp [List.flatMap_cons, symbolsAt_scalar p hp, ih]

theorem mem_numbersFrom :
    ∀ (fuel : Nat) (a j : Int), j ∈ numbersFrom a fuel → a ≤ j ∧ j < a + fuel := by
  intro fuel
  induction fuel with
  | zero => intro a j hj; simp [numbersFrom] at hj
  | succ k ih =>
      intro a j hj
      simp only [numbersFrom, List.mem_cons] at hj
      rcases hj with h | h
      · subst h
        constructor
        · exact le_refl _
        · omega
      · rcases ih (a + 1) j h with ⟨h1, h2⟩
        constructor <;> omega

theorem take_numbersFrom :
    ∀ (m fuel : Nat) (a : Int),
      (numbersFrom a fuel).take m = numbersFrom a (min m fuel) := by
  intro m
  induction m with
  | zero => intro fuel a; simp [numbersFrom]
  | succ l ih =>
      intro fuel a
      cases fuel with
      | zero => simp [numbersFrom]
      | succ k =>
          rw [show numbersFrom a (k + 1) = a :: numbersFrom (a + 1) k from rfl,
            List.take_succ_cons,
            show min (l + 1) (k + 1) = min l k + 1 by omega,
            show numbersFrom a (min l k + 1)
              = a :: numbersFrom (a + 1) (min l k) from rfl,
            ih k (a + 1)]

/-- Main invariant of the `sync_pattern` fold over a scalar symbol stream
    `f`: starting from a running state whose cursor is `n` and whose
    pending misses sit on `(highestFound, n)`, the fold ends in a state
    satisfying both miss-window predicates. -/
theorem scalar_run_analysis (probe : String → Bool) (mm : Nat) (f : Int → String) :
    ∀ (fuel : Nat) (n : Int) (st : SyncSt),
      st.stopped = false →
      st.currentNumber = n →
      st.currentNumber = st.highestFound + 1 + st.consecutiveMisses →
      st.consecutiveMisses < max mm 1 →
      (∀ j, st.highestFound < j → j < st.currentNumber → probe (f j) = false) →
      MissWindowStopped probe f mm
          (((numbersFrom n fuel).map f).foldl (syncStep probe mm) st) ∧
      MissWindowRunning probe f mm
          (((numbersFrom n fuel).map f).foldl (syncStep probe mm) st) := by
  intro fuel
  induction fuel with
  | zero =>
      intro n st h1 h2 h3 h4 h5
      simp only [numbersFrom, List.map_nil, List.foldl_nil]
      constructor
      · intro hs; rw [h1] at hs; cases hs
      · intro _; exact ⟨h3, h4, h5⟩
  | succ k ih =>
      intro n st h1 h2 h3 h4 h5
      rw [show numbersFrom n (k + 1) = n :: numbersFrom (n + 1) k from rfl,
        List.map_cons, List.foldl_cons]
      cases hx : probe (f n) with
      | true =>
          rw [syncStep_of_hit probe mm st (f n) h1 hx]
          refine ih (n + 1) _ rfl (by simp [h2])
            (by show st.currentNumber + 1 = st.currentNumber + 1 + ((0 : Nat) : Int); omega)
            (by show (0 : Nat) < max mm 1; omega) ?_
          intro j hj1 hj2
          have hj1' : st.currentNumber < j := hj1
          have hj2' : j < st.currentNumber + 1 := hj2
          exfalso
          omega
      | false =>
          rw [syncStep_of_miss probe mm st (f n) h1 hx]
          by_cases hth : mm ≤ st.consecutiveMisses + 1
          · rw [if_pos hth]
            rw [foldl_syncStep_stopped probe mm _ _ rfl]
            constructor
            · intro _
              constructor
              · show st.currentNumber = st.highestFound + ((max mm 1 : Nat) : Int)
                omega
              · intro j hj1 hj2
                have hj1' : st.highestFound < j := hj1
                have hj2' : j ≤ st.currentNumber := hj2
                by_cases hj : j < st.currentNumber
                · exact h5 j hj1' hj
                · have hje : j = st.currentNumber := by omega
                  rw [hje, h2]
                  exact hx
            · intro hs; cases hs
          · rw [if_neg hth]
            refine ih (n + 1) _ rfl (by show st.currentNumber + 1 = n + 1; rw [h2])
              (by
                show st.currentNumber + 1
                    = st.highestFound + 1 + ((st.consecutiveMisses + 1 : Nat) : Int)
                omega)
              (by show st.consecutiveMisses + 1 < max mm 1; omega) ?_
            intro j hj1 hj2
            have hj1' : st.highestFound < j := hj1
            have hj2' : j < st.currentNumber + 1 := hj2
            by_cases hj : j < st.currentNumber
            · exact h5 j hj1' hj
            · have hje : j = st.currentNumber := by omega
              rw [hje, h2]
              exact hx

/-- If the probe misses on the first `max mm 1 - consecutiveMisses`
    pending symbols, the fold discovers nothing and keeps `highestFound`:
    it either stops inside that window or exhausts the list. -/
theorem foldl_syncStep_prefixMiss (probe : String → Bool) (mm : Nat) :
    ∀ (l : List String) (st : SyncSt),
      st.stopped = false →
      st.consecutiveMisses < max mm 1 →
      (∀ sym ∈ l.take (max mm 1 - st.consecutiveMisses), probe sym = false) →
      (l.foldl (syncStep probe mm) st).newDocs = st.newDocs ∧
      (l.foldl (syncStep probe mm) st).highestFound = st.highestFound := by
  intro l
  induction l with
  | nil => intro st _ _ _; exact ⟨rfl, rfl⟩
  | cons x xs ih =>
      intro st h1 h2 h3
      have hx : probe x = false := by
        apply h3
        have hpos : 0 < max mm 1 - st.consecutiveMisses := by omega
        rcases Nat.exists_eq_add_of_lt hpos with ⟨w, hw⟩
        rw [show max mm 1 - st.consecutiveMisses = w + 1 by omega,
          List.take_succ_cons]
        exact List.mem_cons_self x _
      rw [List.foldl_cons, syncStep_of_miss probe mm st x h1 hx]
      by_cases hth : mm ≤ st.consecutiveMisses + 1
      · rw [if_pos hth, foldl_syncStep_stopped probe mm _ _ rfl]
        exact ⟨rfl, rfl⟩
      · rw [if_neg hth]
        refine ih _ rfl (by show st.consecutiveMisses + 1 < max mm 1; omega) ?_
        intro sym hsym
        apply h3
        rw [show max mm 1 - st.consecutiveMisses
            = (max mm 1 - (st.consecutiveMisses + 1)) + 1 by omega,
          List.take_succ_cons]
        exact List.mem_cons_of_mem x hsym

/-- C5 counterexample: for a pattern with list-valued variables the claim
fails.  Under the fixed probe (exactly `A/1/P` and `A/2/P` exist — the
repository never changes), the first sync run of the four-value pattern
stops at the miss threshold inside sequence number 1 having found
`A/1/P`, and the second run — resuming from the recorded
`highest_found = 1` — finds the new document `A/2/P`, so its result is
not `([], 1)`. -/
theorem C5_list_pattern_counterexample :
    (syncRunSt (fun s => s == "A/1/P" || s == "A/2/P") quadPattern emptyState 3 6).stopped
        = true ∧
    sync_pattern (fun s => s == "A/1/P" || s == "A/2/P") quadPattern emptyState 3 6
        = (["A/1/P"], 1) ∧
    sync_pattern (fun s => s == "A/1/P" || s == "A/2/P") quadPattern
        (recordHighest emptyState "quad"
          (sync_pattern (fun s => s == "A/1/P" || s == "A/2/P") quadPattern
            emptyState 3 6).2) 3 6
      ≠ ([], (sync_pattern (fun s => s == "A/1/P" || s == "A/2/P") quadPattern
            emptyState 3 6).2) := by
  refine ⟨by decide, by decide, by decide⟩

/-- C5 (amended: restricted to patterns with no list-valued variables):
if a sync run completes (stops at its miss threshold) and the remote
repository is then unchanged — the probe answers exactly as before — the
second sync run returns an empty new-document list and a `highest_found`
equal to the value recorded by the first run. -/
theorem C5_idempotent_no_listvars (probe : String → Bool) (p : Pattern)
    (s : SyncState) (mm f1 f2 : Nat)
    (hp : listVars p = [])
    (hstop : (syncRunSt probe p s mm f1).stopped = true) :
    sync_pattern probe p
        (recordHighest s p.name (sync_pattern probe p s mm f1).2) mm f2
      = ([], (sync_pattern probe p s mm f1).2) := by
  have hgen1 : genSymbols { p with start? := some (get_start_number p s) } f1
      = (numbersFrom (get_start_number p s) f1).map
          (fun n => renderParts p.template (("number", toString n) :: scalarVars p)) := by
    show (numbersFrom (get_start_number p s) f1).flatMap
        (symbolsAt { p with start? := some (get_start_number p s) }) = _
    exact flatMap_symbolsAt_scalar _ hp _
  have hrun_eq : syncRunSt probe p s mm f1
      = ((numbersFrom (get_start_number p s) f1).map
          (fun n => renderParts p.template (("number", toString n) :: scalarVars p))).foldl
            (syncStep probe mm) (initSyncSt p s) := by
    show (genSymbols { p with start? := some (get_start_number p s) } f1).foldl
        (syncStep probe mm) (initSyncSt p s) = _
    rw [hgen1]
  have hanalysis := scalar_run_analysis probe mm
    (fun n => renderParts p.template (("number", toString n) :: scalarVars p))
    f1 (get_start_number p s) (initSyncSt p s) rfl rfl
    (by
      show get_start_number p s = initHighest p s + 1 + ((0 : Nat) : Int)
      rw [get_start_eq_initHighest]
      omega)
    (by show (0 : Nat) < max mm 1; omega)
    (by
      intro j hj1 hj2
      have hj1' : initHighest p s < j := hj1
      have hj2' : j < get_start_number p s := hj2
      rw [get_start_eq_initHighest] at hj2'
      exfalso
      omega)
  rw [hrun_eq] at hstop
  have hpost := hanalysis.1 hstop
  have hpair1 : (sync_pattern probe p s mm f1).2
      = (((numbersFrom (get_start_number p s) f1).map
          (fun n => renderParts p.template (("number", toString n) :: scalarVars p))).foldl
            (syncStep probe mm) (initSyncSt p s)).highestFound := by
    show (syncRunSt probe p s mm f1).highestFound = _
    rw [hrun_eq]
  have hinit2_h : initHighest p
      (recordHighest s p.name (sync_pattern probe p s mm f1).2)
      = (sync_pattern probe p s mm f1).2 :=
    initHighest_record p s _
  have hs2 : get_start_number p
      (recordHighest s p.name (sync_pattern probe p s mm f1).2)
      = (sync_pattern probe p s mm f1).2 + 1 := by
    rw [get_start_eq_initHighest, hinit2_h]
  have hgen2 : genSymbols
      { p with start? := some (get_start_number p
          (recordHighest s p.name (sync_pattern probe p s mm f1).2)) } f2
      = (numbersFrom (get_start_number p
          (recordHighest s p.name (sync_pattern probe p s mm f1).2)) f2).map
          (fun n => renderParts p.template (("number", toString n) :: scalarVars p)) := by
    show (numbersFrom (get_start_number p
        (recordHighest s p.name (sync_pattern probe p s mm f1).2)) f2).flatMap
        (symbolsAt { p with start? := some (get_start_number p
          (recordHighest s p.name (sync_pattern probe p s mm f1).2)) }) = _
    exact flatMap_symbolsAt_scalar _ hp _
  have hpm := foldl_syncStep_prefixMiss probe mm
    ((numbersFrom (get_start_number p
        (recordHighest s p.name (sync_pattern probe p s mm f1).2)) f2).map
        (fun n => renderParts p.template (("number", toString n) :: scalarVars p)))
    (initSyncSt p (recordHighest s p.name (sync_pattern probe p s mm f1).2))
    rfl
    (by show (0 : Nat) < max mm 1; omega)
    (by
      intro sym hsym
      have hsym' : sym ∈ ((numbersFrom (get_start_number p
          (recordHighest s p.name (sync_pattern probe p s mm f1).2)) f2).map
          (fun n => renderParts p.template (("number", toString n) :: scalarVars p))).take
            (max mm 1) := hsym
      rw [← List.map_take, take_numbersFrom] at hsym'
      obtain ⟨j, hj, hfj⟩ := List.mem_map.mp hsym'
      have hb := mem_numbersFrom _ _ _ hj
      rw [hs2, hpair1] at hb
      have hminle : min (max mm 1) f2 ≤ max mm 1 := Nat.min_le_left _ _
      rw [← hfj]
      apply hpost.2 j
      · omega
      · rw [hpost.1]
        omega)
  have hfinal : sync_pattern probe p
      (recordHighest s p.name (sync_pattern probe p s mm f1).2) mm f2
      = ((((numbersFrom (get_start_number p
          (recordHighest s p.name (sync_pattern probe p s mm f1).2)) f2).map
          (fun n => renderParts p.template (("number", toString n) :: scalarVars p))).foldl
            (syncStep probe mm)
            (initSyncSt p (recordHighest s p.name (sync_pattern probe p s mm f1).2))).newDocs,
        (((numbersFrom (get_start_number p
          (recordHighest s p.name (sync_pattern probe p s mm f1).2)) f2).map
          (fun n => renderParts p.template (("number", toString n) :: scalarVars p))).foldl
            (syncStep probe mm)
            (initSyncSt p (recordHighest s p.name (sync_pattern probe p s mm f1).2))).highestFound) := by
    show (((genSymbols { p with start? := some (get_start_number p
        (recordHighest s p.name (sync_pattern probe p s mm f1).2)) } f2).foldl
          (syncStep probe mm)
          (initSyncSt p (recordHighest s p.name
            (sync_pattern probe p s mm f1).2))).newDocs,
      ((genSymbols { p with start? := some (get_start_number p
        (recordHighest s p.name (sync_pattern probe p s mm f1).2)) } f2).foldl
          (syncStep probe mm)
          (initSyncSt p (recordHighest s p.name
            (sync_pattern probe p s mm f1).2))).highestFound) = _
    rw [hgen2]
  rw [hfinal, hpm.1, hpm.2]
  show ((initSyncSt _ _).newDocs, initHighest p
      (recordHighest s p.name (sync_pattern probe p s mm f1).2))
    = ([], (sync_pattern probe p s mm f1).2)
  rw [hinit2_h]
  rfl

/-- C5 witness: the plain scalar pattern under a fixed probe for which
`A/1` and `A/2` exist; the first run stops at `highest_found = 2` and the
second run returns `([], 2)`. -/
theorem C5_idempotent_no_listvars_witness :
    sync_pattern (fun s => s == "A/1" || s == "A/2") plainPattern
        (recordHighest emptyState plainPattern.name
          (sync_pattern (fun s => s == "A/1" || s == "A/2") plainPattern
            emptyState 3 8).2) 3 9
      = ([], (sync_pattern (fun s => s == "A/1" || s == "A/2") plainPattern
            emptyState 3 8).2) := by
  exact C5_idempotent_no_listvars (fun s => s == "A/1" || s == "A/2") plainPattern
    emptyState 3 8 9 (by decide) (by decide)

/-! ### Deduplication lemmas (for the reference-extraction claim) -/

theorem foldl_dedup_eq (l : List String) :
    ∀ acc : List String,
      l.foldl (fun symbols m =>
          if strUpper m ∈ symbols then symbols else symbols ++ [strUpper m]) acc
        = acc ++ dedupKeepFirst acc (l.map strUpper) := by
  induction l with
  | nil => intro acc; simp [dedupKeepFirst]
  | cons m ms ih =>
      intro acc
      rw [List.foldl_cons, List.map_cons]
      show ms.foldl _ (if strUpper m ∈ acc then acc else acc ++ [strUpper m]) = _
      by_cases hmem : strUpper m ∈ acc
      · rw [if_pos hmem]
        simp only [dedupKeepFirst, if_pos hmem]
        exact ih acc
      · rw [if_neg hmem]
        simp only [dedupKeepFirst, if_neg hmem]
        rw [ih (acc ++ [strUpper m])]
        simp

theorem dedupKeepFirst_nodup :
    ∀ (l seen : List String),
      (dedupKeepFirst seen l).Nodup ∧ ∀ x ∈ dedupKeepFirst seen l, x ∉ seen := by
  intro l
  induction l with
  | nil => intro seen; exact ⟨List.nodup_nil, by simp [dedupKeepFirst]⟩
  | cons x xs ih =>
      intro seen
      by_cases hmem : x ∈ seen
      · simp only [dedupKeepFirst, if_pos hmem]
        exact ih seen
      · simp only [dedupKeepFirst, if_neg hmem]
        rcases ih (seen ++ [x]) with ⟨h1, h2⟩
        constructor
        · refine List.nodup_cons.mpr ⟨?_, h1⟩
          intro hx
          exact h2 x hx (by simp)
        · intro y hy
          rcases List.mem_cons.mp hy with rfl | hy'
          · exact hmem
          · intro hcon
            exact h2 y hy' (List.mem_append_left _ hcon)

/-- C8: `find_symbol_references` returns exactly the regex matches of the
symbol grammar (uppercased), deduplicated preserving first-appearance
order; in particular the result never contains duplicates.  The third
conjunct checks case-insensitive matching, normalization and
deduplication on a concrete text. -/
theorem C8_find_symbol_references :
    (∀ t : String, find_symbol_references t
        = dedupKeepFirst [] ((symbolMatches t).map strUpper)) ∧
    (∀ t : String, (find_symbol_references t).Nodup) ∧
    find_symbol_references c8text = ["A/80/L.5", "A/C.2/80/L.35"] := by
  have hfold : ∀ t : String, find_symbol_references t
      = dedupKeepFirst [] ((symbolMatches t).map strUpper) := by
    intro t
    calc find_symbol_references t
        = [] ++ dedupKeepFirst [] ((symbolMatches t).map strUpper) :=
          foldl_dedup_eq (symbolMatches t) []
      _ = dedupKeepFirst [] ((symbolMatches t).map strUpper) := by simp
  refine ⟨hfold, fun t => ?_, by decide⟩
  rw [hfold]
  exact (dedupKeepFirst_nodup _ _).1

/-! ### Lineage resolver lemmas (for the pass-priority claim) -/

theorem pass0Update_symbol (resSym : String) (md : UndlMetadata)
    (drafts : List String) (d : DocRecord) :
    (pass0Update resSym md drafts d).symbol = d.symbol := by
  simp only [pass0Update]
  split
  · split <;> rfl
  · split <;> rfl

theorem pass1Update_symbol (resSym prop : String) (present : Bool) (d : DocRecord) :
    (pass1Update resSym prop present d).symbol = d.symbol := by
  simp only [pass1Update]
  split
  · split <;> rfl
  · split <;> rfl

theorem pass0Update_off (resSym : String) (md : UndlMetadata)
    (drafts : List String) (d : DocRecord) (h : (d.symbol == resSym) = false) :
    (pass0Update resSym md drafts d).link_method = d.link_method ∧
    (pass0Update resSym md drafts d).link_confidence = d.link_confidence ∧
    (pass0Update resSym md drafts d).base_proposal_symbol = d.base_proposal_symbol ∧
    (pass0Update resSym md drafts d).linked_proposal_symbols
      = d.linked_proposal_symbols := by
  simp only [pass0Update, h, Bool.false_eq_true, if_false]
  split <;> exact ⟨rfl, rfl, rfl, rfl⟩

theorem pass1Update_off (resSym prop : String) (present : Bool) (d : DocRecord)
    (h : (d.symbol == resSym) = false) :
    (pass1Update resSym prop present d).link_method = d.link_method ∧
    (pass1Update resSym prop present d).link_confidence = d.link_confidence ∧
    (pass1Update resSym prop present d).base_proposal_symbol = d.base_proposal_symbol ∧
    (pass1Update resSym prop present d).linked_proposal_symbols
      = d.linked_proposal_symbols := by
  simp only [pass1Update, h, Bool.false_eq_true, if_false]
  split <;> exact ⟨rfl, rfl, rfl, rfl⟩

theorem pass0Update_on (resSym : String) (md : UndlMetadata)
    (drafts : List String) (d : DocRecord) (h : (d.symbol == resSym) = true) :
    (pass0Update resSym md drafts d).link_method = LinkMethod.undl_metadata ∧
    (pass0Update resSym md drafts d).link_confidence = 1 ∧
    (pass0Update resSym md drafts d).base_proposal_symbol = md.base_proposal := by
  simp only [pass0Update, h, if_true]
  split <;> exact ⟨rfl, rfl, rfl⟩

theorem map_symbol_of_preserve (f : DocRecord → DocRecord)
    (hf : ∀ d, (f d).symbol = d.symbol) :
    ∀ coll : List DocRecord,
      (coll.map f).map DocRecord.symbol = coll.map DocRecord.symbol := by
  intro coll
  induction coll with
  | nil => rfl
  | cons d ds ih => simp [hf, ih]

/-- Shape of one cascade step: it either leaves the collection unchanged,
    or the record it processed was unlinked and the result is a Pass-0 or
    Pass-1 map over the collection, keyed at that record's symbol. -/
theorem processResolution_cases (fetch : String → Option UndlMetadata) (u : Bool)
    (coll : List DocRecord) (sym : String) :
    processResolution fetch u coll sym = coll ∨
    ∃ d0, coll.find? (fun d => d.symbol == sym) = some d0 ∧
      d0.base_proposal_symbol = Option.none ∧
      ((∃ md, cond u (fetch d0.symbol) Option.none = some md ∧
          processResolution fetch u coll sym = pass0Apply d0.symbol md coll) ∨
       (∃ prop,
          processResolution fetch u coll sym
            = coll.map (pass1Update d0.symbol prop
                (coll.any fun x => x.symbol == prop)))) := by
  unfold processResolution
  cases hfind : coll.find? (fun d => d.symbol == sym) with
  | none => exact Or.inl rfl
  | some d0 =>
      by_cases hres : is_resolution d0.symbol = true
      · simp only [hres, if_true]
        by_cases hskip :
            (d0.linked_proposal_symbols.isEmpty && d0.base_proposal_symbol.isNone) = true
        · simp only [hskip, if_true]
          have hbn : d0.base_proposal_symbol = Option.none := by
            rw [Bool.and_eq_true] at hskip
            exact Option.isNone_iff_eq_none.mp hskip.2
          cases hmd : cond u (fetch d0.symbol) Option.none with
          | none =>
              unfold pass1Cascade
              cases hp : d0.symbol_references.find? (fun s => is_proposal s) with
              | none => exact Or.inl (by trivial)
              | some prop =>
                  exact Or.inr ⟨d0, rfl, hbn, Or.inr ⟨prop, by trivial⟩⟩
          | some md =>
              by_cases hbp : md.base_proposal.isSome = true
              · simp only [hbp, if_true]
                exact Or.inr ⟨d0, rfl, hbn, Or.inl ⟨md, hmd, by trivial⟩⟩
              · simp only [hbp, Bool.false_eq_true, if_false]
                unfold pass1Cascade
                cases hp : d0.symbol_references.find? (fun s => is_proposal s) with
                | none => exact Or.inl (by trivial)
                | some prop =>
                    exact Or.inr ⟨d0, rfl, hbn, Or.inr ⟨prop, by trivial⟩⟩
        · simp only [hskip, Bool.false_eq_true, if_false]
          exact Or.inl (by trivial)
      · rw [Bool.not_eq_true] at hres
        simp only [hres, Bool.false_eq_true, if_false]
        exact Or.inl (by trivial)

theorem processResolution_map_symbol (fetch : String → Option UndlMetadata)
    (u : Bool) (coll : List DocRecord) (sym : String) :
    (processResolution fetch u coll sym).map DocRecord.symbol
      = coll.map DocRecord.symbol := by
  rcases processResolution_cases fetch u coll sym with heq | ⟨d0, _, _, hcase⟩
  · rw [heq]
  · rcases hcase with ⟨md, _, heq⟩ | ⟨prop, heq⟩
    · rw [heq]
      exact map_symbol_of_preserve _ (pass0Update_symbol d0.symbol md _) coll
    · rw [heq]
      exact map_symbol_of_preserve _ (pass1Update_symbol d0.symbol prop _) coll

theorem processResolution_preserves_est (fetch : String → Option UndlMetadata)
    (u : Bool) (coll : List DocRecord) (sym rs : String)
    (hest : EstAt rs coll) : EstAt rs (processResolution fetch u coll sym) := by
  rcases processResolution_cases fetch u coll sym with heq | ⟨d0, hfind, hbn, hcase⟩
  · rw [heq]; exact hest
  · have hd0mem := List.mem_of_find?_eq_some hfind
    have hd0ne : d0.symbol ≠ rs := by
      intro hcon
      rcases hest d0 hd0mem hcon with ⟨_, _, hsome⟩
      rw [hbn] at hsome
      cases hsome
    rcases hcase with ⟨md, _, heq⟩ | ⟨prop, heq⟩
    · rw [heq]
      intro d' hd' hsym'
      obtain ⟨d, hd, rfl⟩ := List.mem_map.mp hd'
      rw [pass0Update_symbol] at hsym'
      have hne : (d.symbol == d0.symbol) = false :=
        beq_eq_false_iff_ne.mpr (by rw [hsym']; exact fun hh => hd0ne hh.symm)
      rcases pass0Update_off d0.symbol md _ d hne with ⟨h1, h2, h3, _⟩
      rcases hest d hd hsym' with ⟨e1, e2, e3⟩
      exact ⟨h1.trans e1, h2.trans e2, by rw [h3]; exact e3⟩
    · rw [heq]
      intro d' hd' hsym'
      obtain ⟨d, hd, rfl⟩ := List.mem_map.mp hd'
      rw [pass1Update_symbol] at hsym'
      have hne : (d.symbol == d0.symbol) = false :=
        beq_eq_false_iff_ne.mpr (by rw [hsym']; exact fun hh => hd0ne hh.symm)
      rcases pass1Update_off d0.symbol prop _ d hne with ⟨h1, h2, h3, _⟩
      rcases hest d hd hsym' with ⟨e1, e2, e3⟩
      exact ⟨h1.trans e1, h2.trans e2, by rw [h3]; exact e3⟩

theorem processResolution_preserves_unlinked (fetch : String → Option UndlMetadata)
    (u : Bool) (coll : List DocRecord) (sym rs : String)
    (hne : sym ≠ rs) (hunl : UnlinkedAt rs coll) :
    UnlinkedAt rs (processResolution fetch u coll sym) := by
  rcases processResolution_cases fetch u coll sym with heq | ⟨d0, hfind, _, hcase⟩
  · rw [heq]; exact hunl
  · have hd0sym : d0.symbol = sym := by
      have := List.find?_some hfind
      exact eq_of_beq this
    rcases hcase with ⟨md, _, heq⟩ | ⟨prop, heq⟩
    · rw [heq]
      intro d' hd' hsym'
      obtain ⟨d, hd, rfl⟩ := List.mem_map.mp hd'
      rw [pass0Update_symbol] at hsym'
      have hneb : (d.symbol == d0.symbol) = false :=
        beq_eq_false_iff_ne.mpr
          (by rw [hsym', hd0sym]; exact fun hh => hne hh.symm)
      rcases pass0Update_off d0.symbol md _ d hneb with ⟨_, _, h3, h4⟩
      rcases hunl d hd hsym' with ⟨u1, u2⟩
      exact ⟨h4.trans u1, h3.trans u2⟩
    · rw [heq]
      intro d' hd' hsym'
      obtain ⟨d, hd, rfl⟩ := List.mem_map.mp hd'
      rw [pass1Update_symbol] at hsym'
      have hneb : (d.symbol == d0.symbol) = false :=
        beq_eq_false_iff_ne.mpr
          (by rw [hsym', hd0sym]; exact fun hh => hne hh.symm)
      rcases pass1Update_off d0.symbol prop _ d hneb with ⟨_, _, h3, h4⟩
      rcases hunl d hd hsym' with ⟨u1, u2⟩
      exact ⟨h4.trans u1, h3.trans u2⟩

/-- The establishing step: processing an unlinked resolution `rs` whose
    metadata fetch yields a record with a base proposal applies Pass 0 to
    the whole collection. -/
theorem processResolution_establishes (fetch : String → Option UndlMetadata)
    (coll : List DocRecord) (rs : String) (md : UndlMetadata) (b : String)
    (hres : is_resolution rs = true)
    (hfetch : fetch rs = some md)
    (hbase : md.base_proposal = some b)
    (hmem : rs ∈ coll.map DocRecord.symbol)
    (hunl : UnlinkedAt rs coll) :
    EstAt rs (processResolution fetch true coll rs) := by
  obtain ⟨d, hd, hdsym⟩ := List.mem_map.mp hmem
  have hfs : (coll.find? (fun d => d.symbol == rs)).isSome := by
    rw [List.find?_isSome]
    exact ⟨d, hd, beq_iff_eq.mpr hdsym⟩
  obtain ⟨d0, hfind⟩ := Option.isSome_iff_exists.mp hfs
  have hd0sym : d0.symbol = rs := by
    have h := List.find?_some hfind
    exact eq_of_beq h
  have hd0mem := List.mem_of_find?_eq_some hfind
  rcases hunl d0 hd0mem hd0sym with ⟨hu1, hu2⟩
  have hstep : processResolution fetch true coll rs = pass0Apply d0.symbol md coll := by
    unfold processResolution
    rw [hfind]
    dsimp only
    rw [show is_resolution d0.symbol = true from by rw [hd0sym]; exact hres]
    rw [show (d0.linked_proposal_symbols.isEmpty
        && d0.base_proposal_symbol.isNone) = true from by rw [hu1, hu2]; rfl]
    rw [show cond true (fetch d0.symbol) Option.none = fetch d0.symbol from rfl]
    rw [show fetch d0.symbol = some md from by rw [hd0sym]; exact hfetch]
    simp only [eq_self_iff_true, if_true]
    rw [show md.base_proposal.isSome = true from by rw [hbase]; rfl]
    simp only [eq_self_iff_true, if_true]
  rw [hstep]
  intro d' hd' hsym'
  obtain ⟨e, he, rfl⟩ := List.mem_map.mp hd'
  rw [pass0Update_symbol] at hsym'
  have hon : (e.symbol == d0.symbol) = true := beq_iff_eq.mpr (by rw [hsym', hd0sym])
  rcases pass0Update_on d0.symbol md _ e hon with ⟨h1, h2, h3⟩
  refine ⟨h1, h2, ?_⟩
  rw [h3, hbase]
  rfl

/-- Folding the cascade over any symbol list containing `rs` establishes
    (or preserves) the Pass-0 link on every record named `rs`. -/
theorem linkFold (fetch : String → Option UndlMetadata) (rs : String)
    (md : UndlMetadata) (b : String)
    (hres : is_resolution rs = true)
    (hfetch : fetch rs = some md)
    (hbase : md.base_proposal = some b) :
    ∀ (syms : List String) (coll : List DocRecord),
      ((rs ∈ coll.map DocRecord.symbol ∧ rs ∈ syms ∧ UnlinkedAt rs coll) ∨
        EstAt rs coll) →
      EstAt rs (syms.foldl (processResolution fetch true) coll) := by
  intro syms
  induction syms with
  | nil =>
      intro coll h
      rcases h with ⟨_, hmem, _⟩ | hest
      · cases hmem
      · exact hest
  | cons sy rest ih =>
      intro coll h
      rw [List.foldl_cons]
      rcases h with ⟨hmem, hsy, hunl⟩ | hest
      · by_cases hcase : sy = rs
        · subst hcase
          exact ih _ (Or.inr
            (processResolution_establishes fetch coll sy md b hres hfetch hbase
              hmem hunl))
        · rcases List.mem_cons.mp hsy with hbad | hrest
          · exact absurd hbad.symm hcase
          · refine ih _ (Or.inl ⟨?_, hrest, ?_⟩)
            · rw [processResolution_map_symbol]
              exact hmem
            · exact processResolution_preserves_unlinked fetch true coll sy rs
                hcase hunl
      · exact ih _ (Or.inr (processResolution_preserves_est fetch true coll sy rs hest))

/-- C9 (spec-modelled): a resolution record whose metadata lookup returns
a record with a non-absent `base_proposal`, and which also carries an
in-text symbol reference to a proposal, comes out of the resolver with
`link_method = undl_metadata` and `link_confidence = 1.0` — never
`symbol_reference`: Pass 0 pre-empts Pass 1. -/
theorem C9_pass0_preempts (fetch : String → Option UndlMetadata)
    (docs : List DocRecord) (r : DocRecord) (md : UndlMetadata) (b pref : String)
    (hr : r ∈ docs)
    (hres : is_resolution r.symbol = true)
    (hU : ∀ d ∈ docs, d.symbol = r.symbol →
      d.linked_proposal_symbols = [] ∧ d.base_proposal_symbol = Option.none)
    (hfetch : fetch r.symbol = some md)
    (hbase : md.base_proposal = some b)
    (_hpref : pref ∈ r.symbol_references)
    (_hprop : is_proposal pref = true) :
    ∀ d ∈ link_documents fetch true docs, d.symbol = r.symbol →
      d.link_method = LinkMethod.undl_metadata ∧ d.link_confidence = 1 ∧
      d.link_method ≠ LinkMethod.symbol_reference := by
  have hest : EstAt r.symbol (link_documents fetch true docs) := by
    apply linkFold fetch r.symbol md b hres hfetch hbase
    exact Or.inl ⟨List.mem_map_of_mem DocRecord.symbol hr,
      List.mem_map_of_mem DocRecord.symbol hr, hU⟩
  intro d hd hsym
  rcases hest d hd hsym with ⟨h1, h2, _⟩
  refine ⟨h1, h2, ?_⟩
  rw [h1]
  intro hcon
  cases hcon

/-- C9 witness: the two-record fixture; the resolver's output record named
`A/RES/80/142` carries the Pass-0 link. -/
theorem C9_pass0_preempts_witness :
    linkedC9.link_method = LinkMethod.undl_metadata ∧
    linkedC9.link_confidence = 1 ∧
    linkedC9.link_method ≠ LinkMethod.symbol_reference := by
  exact C9_pass0_preempts c9fetch [c9res, c9prop] c9res c9md
    "A/C.2/80/L.35" "A/C.2/80/L.35"
    (by decide) (by decide) (by decide) (by decide) (by decide) (by decide) (by decide)
    linkedC9 (by decide) (by decide)

end MandatePipeline
